import Mathlib

/-
Verification of the commit-cat CLI against its natural-language specification.

The JavaScript sources are shallowly embedded: JS strings become `List Char`
(Unicode scalar values), the filesystem and subprocess layer become explicit
oracles passed as arguments, and each translated function carries a reference
to the source lines it embeds.
-/

namespace CommitCat

/-- JavaScript strings, modelled as lists of Unicode scalar values. -/
abbrev JsStr := List Char

/-- Convert a Lean string literal to the `JsStr` representation. -/
def js (s : String) : JsStr := s.data

/-- The whitespace class used by JavaScript `trim` and the regex escape for
whitespace (restricted to the ASCII whitespace characters, which are the only
ones appearing in this development). -/
def isJsWs (c : Char) : Bool :=
  c = ' ' || c = '\t' || c = '\n' || c = '\r' || c = '\x0b' || c = '\x0c'

/-- JavaScript `String.prototype.trim`. -/
def jsTrim (s : JsStr) : JsStr :=
  ((s.dropWhile isJsWs).reverse.dropWhile isJsWs).reverse

/-- Whether `needle` starts `hay`.  The needle is examined first, so the test
reduces even when only a proper head of `hay` is concrete. -/
def leadMatch (needle hay : JsStr) : Bool :=
  match needle with
  | [] => true
  | a :: as =>
    match hay with
    | [] => false
    | b :: bs => (a == b) && leadMatch as bs

/-- JavaScript `String.prototype.includes`: substring containment. -/
def includesSub (hay needle : JsStr) : Bool :=
  match hay with
  | [] => needle.isEmpty
  | _ :: t => leadMatch needle hay || includesSub t needle

/-- Leading whitespace of a line, as captured by the source regex match for
leading whitespace in the injection code. -/
def leadingWS (l : JsStr) : JsStr := l.takeWhile isJsWs

/-- JavaScript `String.prototype.toLowerCase`, per code point. -/
def toLowerStr (s : JsStr) : JsStr := s.map Char.toLower

/-!  ## src/src/utils.js — text layout -/

/-- Width contribution of one embedded character in `getVisualWidth`
(src/src/utils.js lines 20-28).  The source iterates UTF-16 code units and
counts a unit whose value exceeds 255 as two columns.  A character of the
supplementary planes is stored as two surrogate units, both above 255, so it
contributes 4; a BMP character above 255 contributes 2; anything else 1. -/
def charVisualWidth (c : Char) : Nat :=
  if c.toNat ≥ 0x10000 then 4 else if c.toNat > 255 then 2 else 1

/-- `getVisualWidth` from src/src/utils.js lines 20-28. -/
def getVisualWidth (s : JsStr) : Nat := (s.map charVisualWidth).sum

/-- JavaScript `a || d` for an optional numeric `a`: `undefined` and `0` are
falsy and select the fallback. -/
def numOr (o : Option Int) (d : Int) : Int :=
  match o with
  | some v => if v ≠ 0 then v else d
  | none => d

/-- Effective terminal column count in `wrapText` (src/src/utils.js lines
32-35): `process.stdout.columns` when present and nonzero, otherwise 80. -/
def effectiveCols (columns : Option Int) : Int := numOr columns 80

/-- The wrapping limit of `wrapText` (src/src/utils.js line 37):
`maxWidth || Math.min(80, cols - 12)`. -/
def wrapLimit (maxWidth columns : Option Int) : Int :=
  numOr maxWidth (min 80 (effectiveCols columns - 12))

/-- The inner character loop of `wrapText` (src/src/utils.js lines 41-54),
carrying the current line and its accumulated width; returns the lines pushed
for one paragraph, including the final push of the current line. -/
def wrapLoop (limit : Int) : JsStr → JsStr → Nat → List JsStr
  | [], cur, _ => [cur]
  | c :: rest, cur, w =>
    if (w : Int) + charVisualWidth c > limit then
      cur :: wrapLoop limit rest [c] (charVisualWidth c)
    else wrapLoop limit rest (cur ++ [c]) (w + charVisualWidth c)

/-- The `lines` array built by `wrapText` (src/src/utils.js lines 39-56):
split the text into paragraphs on newlines and wrap each greedily. -/
def wrapTextLines (text : JsStr) (maxWidth columns : Option Int) : List JsStr :=
  ((text.splitOn '\n').map
    (fun para => wrapLoop (wrapLimit maxWidth columns) para [] 0)).flatten

/-- `wrapText` from src/src/utils.js lines 30-58, including the falsy-text
early return. -/
def wrapText (text : JsStr) (maxWidth columns : Option Int) : JsStr :=
  if text.isEmpty then []
  else List.intercalate (js "\n") (wrapTextLines text maxWidth columns)

/-!  ## src/src/utils.js — boxMessage -/

/-- The frame glyphs emitted by `boxMessage`. -/
def isBoxGlyph (c : Char) : Bool :=
  c = '┌' || c = '┐' || c = '└' || c = '┘' || c = '│' || c = '─'

/-- Rendered column width of an output row: each frame glyph occupies one
terminal column; every other character is measured by the source width rule. -/
def renderWidth (s : JsStr) : Nat :=
  (s.map (fun c => if isBoxGlyph c then 1 else charVisualWidth c)).sum

/-- Content-width budget of `boxMessage` (src/src/utils.js line 65):
`Math.min(80, cols - 4)`. -/
def boxMaxContentWidth (columns : Option Int) : Int :=
  min 80 (effectiveCols columns - 4)

/-- The wrapped content lines of `boxMessage` (src/src/utils.js lines 68-69). -/
def boxLines (text : JsStr) (columns : Option Int) : List JsStr :=
  (wrapText text (some (boxMaxContentWidth columns)) columns).splitOn '\n'

/-- The content width computed by `boxMessage` (src/src/utils.js lines 72-79):
widest wrapped line, raised to the title width plus two. -/
def boxContentWidth (title text : JsStr) (columns : Option Int) : Nat :=
  max (((boxLines text columns).map getVisualWidth).foldl max 0)
    (getVisualWidth title + 2)

/-- `boxWidth` of `boxMessage` (src/src/utils.js line 81). -/
def boxWidthOf (title text : JsStr) (columns : Option Int) : Nat :=
  boxContentWidth title text columns + 2

/-- The dash count right of the embedded title (src/src/utils.js line 104). -/
def boxRightDashes (title text : JsStr) (columns : Option Int) : Int :=
  (boxWidthOf title text columns : Int) - getVisualWidth title - 3

/-- The row padding for one content line (src/src/utils.js line 120). -/
def boxRowPadding (title text : JsStr) (columns : Option Int) (line : JsStr) : Int :=
  (boxWidthOf title text columns : Int) - getVisualWidth line - 1

/-- `boxMessage` from src/src/utils.js lines 60-127, returning the `out` array
of rows (the source joins the rows with newlines before printing). -/
def boxRows (title text : JsStr) (columns : Option Int) : List JsStr :=
  let boxWidth := boxWidthOf title text columns
  let topWithTitle :=
    js "┌─ " ++ title ++ [' ']
      ++ List.replicate (max 0 (boxRightDashes title text columns)).toNat '─' ++ ['┐']
  let rows := (boxLines text columns).map (fun line =>
    js "│ " ++ line
      ++ List.replicate (max 0 (boxRowPadding title text columns line)).toNat ' '
      ++ ['│'])
  let bottomBorder := ['└'] ++ List.replicate boxWidth '─' ++ ['┘']
  topWithTitle :: rows ++ [bottomBorder]

/-!  ## Node `path.extname` -/

/-- Node `path.extname` followed by nothing: last dot of the basename, kept
with the dot; empty when the basename has no dot, starts with its only dot, or
is the special name `.` or `..`. -/
def extname (p : JsStr) : JsStr :=
  let base := (p.splitOn '/').getLastD []
  if base = js "." ∨ base = js ".." then []
  else
    match base.reverse.findIdx? (fun c => c = '.') with
    | none => []
    | some rIdx =>
      let i := base.length - 1 - rIdx
      if i = 0 then [] else base.drop i

/-!  ## src/src/ui.js — diff collector (lines 127-165, 245-272, 442-470)

The filesystem and the `git diff` subprocess are oracles: for each path the
environment supplies the `statSync` size (`none` models `statSync` throwing)
and the staged diff text (`none` models `execSync` throwing); either `none`
lands in the source's catch block. -/

def IGNORE_PATTERNS : List JsStr :=
  [js "package-lock.json", js "yarn.lock", js "pnpm-lock.yaml", js "bun.lockb",
   js ".map", js "dist/", js "build/", js ".DS_Store"]

def BINARY_EXTENSIONS : List JsStr :=
  [js ".png", js ".jpg", js ".jpeg", js ".gif", js ".ico", js ".svg",
   js ".woff", js ".woff2", js ".ttf", js ".eot", js ".mp4", js ".mov",
   js ".mp3", js ".zip", js ".tar", js ".gz", js ".pdf"]

def MAX_FILE_SIZE : Nat := 30000

def MAX_TOTAL_SIZE : Nat := 100000

structure FileLookup where
  statSize : Option Nat
  diffText : Option JsStr

inductive DiffResult where
  | skip (reason : JsStr)
  | content (diff : JsStr)
deriving DecidableEq

/-- `getFileDiff` from src/src/ui.js lines 245-272: stat the file (a throw is
caught as reason "error reading"), then filter by ignore substring, binary
extension, on-disk size, and finally by the size of the fetched diff text. -/
def getFileDiff (fsys : JsStr → FileLookup) (file : JsStr) : DiffResult :=
  match (fsys file).statSize with
  | none => .skip (js "error reading")
  | some size =>
    if IGNORE_PATTERNS.any (fun pat => includesSub file pat) then
      .skip (js "ignored")
    else if BINARY_EXTENSIONS.contains (toLowerStr (extname file)) then
      .skip (js "binary")
    else if size > MAX_FILE_SIZE then
      .skip (js "too large")
    else
      match (fsys file).diffText with
      | none => .skip (js "error reading")
      | some diff =>
        if diff.length > MAX_FILE_SIZE then .skip (js "diff too large")
        else .content diff

/-- Per-file outcome of the collection loop.  This is ghost instrumentation
recording, for each staged file in order, whether its diff entered the payload
(and its length) or the skip reason; the source only keeps `fullDiff` and the
`skippedFiles` strings, both of which are also modelled faithfully below. -/
inductive Fate where
  | included (size : Nat)
  | skipped (reason : JsStr)
deriving DecidableEq

structure CollectSt where
  fullDiff : JsStr
  totalSize : Nat
  skippedFiles : List JsStr
  trace : List (JsStr × Fate)

def initCollect : CollectSt := ⟨[], 0, [], []⟩

/-- Record a skip exactly as the source pushes `file (reason)`. -/
def skipMark (st : CollectSt) (file reason : JsStr) : CollectSt :=
  { st with
    skippedFiles := st.skippedFiles ++ [file ++ js " (" ++ reason ++ js ")"],
    trace := st.trace ++ [(file, .skipped reason)] }

/-- One iteration of the diff-collection loop, src/src/ui.js lines 450-470. -/
def collectStep (fsys : JsStr → FileLookup) (st : CollectSt) (file : JsStr) :
    CollectSt :=
  if st.totalSize ≥ MAX_TOTAL_SIZE then skipMark st file (js "Total Limit")
  else
    match getFileDiff fsys file with
    | .skip r => skipMark st file r
    | .content d =>
      if st.totalSize + d.length > MAX_TOTAL_SIZE then
        skipMark st file (js "Total Limit")
      else
        { fullDiff := st.fullDiff ++ js "--- " ++ file ++ js "\n+++ " ++ file
            ++ js "\n" ++ d ++ js "\n",
          totalSize := st.totalSize + d.length,
          skippedFiles := st.skippedFiles,
          trace := st.trace ++ [(file, .included d.length)] }

/-- The whole collection loop over the staged-file listing. -/
def collect (fsys : JsStr → FileLookup) (files : List JsStr) : CollectSt :=
  files.foldl (collectStep fsys) initCollect

/-- Sum of the diff lengths recorded as included. -/
def sumIncluded (tr : List (JsStr × Fate)) : Nat :=
  (tr.map (fun p => match p.2 with | .included n => n | .skipped _ => 0)).sum

/-!  ## src/src/git.js — getCommentSyntax (lines 28-49) -/

/-- `getCommentSyntax` from src/src/git.js lines 28-49.  The source's
HTML-style branch matches several markup extensions but only returns for
`.md`; every other member of that branch falls through to the C-style
default, which is equivalent to the single `.md` test written here. -/
def getCommentSyntax (filePath message : JsStr) : JsStr :=
  let ext := toLowerStr (extname filePath)
  let content := js "TODO: [AI] " ++ message
  if [js ".yml", js ".yaml", js ".py", js ".sh", js ".rb", js ".dockerfile",
      js ".toml"].contains ext then
    js "# " ++ content
  else if [js ".css", js ".scss", js ".less", js ".saas"].contains ext then
    js "/* " ++ content ++ js " */"
  else if ext = js ".md" then
    js "<!-- " ++ content ++ js " -->"
  else
    js "// " ++ content

/-!  ## src/src/git.js — editCommitMessage (lines 51-67)

The editor flow is modelled by an oracle for its three effectful steps:
whether `spawnSync` throws (landing in the catch block), whether the temp
file still exists after the editor ran, and the result of reading it back
(`none` models `readFileSync` throwing).  The returned pair is the message
handed back to the caller together with a flag telling whether the temporary
file is still on disk when the function returns. -/

structure EditorEnv where
  spawnThrows : Bool
  tempExistsAfterEditor : Bool
  readResult : Option JsStr

/-- `editCommitMessage` from src/src/git.js lines 51-67.  The temp file is
unlinked only on the path where `spawnSync` returned, the file still exists
and reading it back succeeded; the catch block returns the initial message
without unlinking. -/
def editCommitMessage (initial : JsStr) (env : EditorEnv) : JsStr × Bool :=
  if env.spawnThrows then (initial, true)
  else if env.tempExistsAfterEditor then
    match env.readResult with
    | none => (initial, true)
    | some contents => (jsTrim contents, false)
  else (initial, false)

/-!  ## src/bin/commit-cat.mjs — suggestion injection (lines 254-292) -/

structure Finding where
  message : JsStr
  filePath : JsStr
  lineNumber : Option JsStr
  contextLine : Option JsStr
deriving DecidableEq

/-- Value of one decimal digit. -/
def digitVal (c : Char) : Option Nat :=
  if '0' ≤ c ∧ c ≤ '9' then some (c.toNat - 48) else none

/-- Value of one hexadecimal digit. -/
def hexVal (c : Char) : Option Nat :=
  if '0' ≤ c ∧ c ≤ '9' then some (c.toNat - 48)
  else if 'a' ≤ c ∧ c ≤ 'f' then some (c.toNat - 87)
  else if 'A' ≤ c ∧ c ≤ 'F' then some (c.toNat - 55)
  else none

/-- Accumulate a maximal run of digits. -/
def parseRunGo (val : Char → Option Nat) (base : Int) (acc : Int) :
    JsStr → Int
  | [] => acc
  | c :: t =>
    match val c with
    | none => acc
    | some d => parseRunGo val base (acc * base + d) t

/-- Parse a maximal nonempty leading digit run; `none` when the first
character is not a digit (JavaScript NaN). -/
def parseRun (val : Char → Option Nat) (base : Int) : JsStr → Option Int
  | [] => none
  | c :: t =>
    match val c with
    | none => none
    | some d => some (parseRunGo val base (Int.ofNat d) t)

/-- JavaScript `parseInt` with no radix argument: skip leading whitespace,
accept an optional sign, auto-detect a `0x` hexadecimal literal, else parse a
maximal run of decimal digits; `none` models NaN. -/
def jsParseInt (s : JsStr) : Option Int :=
  let t := s.dropWhile isJsWs
  let signed : Bool × JsStr :=
    match t with
    | '-' :: r => (true, r)
    | '+' :: r => (false, r)
    | _ => (false, t)
  let core :=
    match signed.2 with
    | '0' :: c :: r =>
      if c = 'x' ∨ c = 'X' then parseRun hexVal 16 r
      else parseRun digitVal 10 signed.2
    | _ => parseRun digitVal 10 signed.2
  core.map (fun v => if signed.1 then -v else v)

/-- The injection attempt for one finding, src/bin/commit-cat.mjs lines
262-280 (the same code appears inline in the `issues` action).  Returns the
new lines array on success, `none` when nothing was injected.  The context
branch requires a truthy `contextLine`; the fallback requires a truthy
`lineNumber` whose `parseInt` value, shifted to a 0-based index, selects a
*truthy* array element — so an out-of-range index, a non-positive index and an
empty line all fail. -/
def injectFinding (item : Finding) (lines : List JsStr) :
    Option (List JsStr) :=
  let todo := getCommentSyntax item.filePath item.message
  let viaContext : Option (List JsStr) :=
    match item.contextLine with
    | some ctx =>
      if ctx.isEmpty then none
      else
        match lines.findIdx? (fun l => includesSub l (jsTrim ctx)) with
        | some i =>
          some (lines.take i ++ [leadingWS (lines.getD i []) ++ todo]
            ++ lines.drop i)
        | none => none
    | none => none
  match viaContext with
  | some r => some r
  | none =>
    match item.lineNumber with
    | some ln =>
      if ln.isEmpty then none
      else
        match jsParseInt ln with
        | some n =>
          if 0 ≤ n - 1 ∧ (n - 1).toNat < lines.length then
            if (lines.getD (n - 1).toNat []).isEmpty then none
            else
              some (lines.take (n - 1).toNat ++ [todo]
                ++ lines.drop (n - 1).toNat)
          else none
        | none => none
    | none => none

/-!  ## src/bin/commit-cat.mjs — the issues action (lines 245-292)

The working tree is an oracle mapping a path to its contents (`none` when
`existsSync` is false).  Each selected index is processed in order against the
current tree, so an earlier write is visible to a later read of the same
file, exactly as in the source. -/

structure ApplySt where
  fsys : JsStr → Option JsStr
  removed : List Nat
  applied : Nat

/-- Point update of the working tree by `writeFileSync`. -/
def fsWrite (fsys : JsStr → Option JsStr) (p v : JsStr) :
    JsStr → Option JsStr :=
  fun q => if q = p then some v else fsys q

def joinLines (ls : List JsStr) : JsStr := List.intercalate (js "\n") ls

/-- Processing of one selected suggestion index, src/bin/commit-cat.mjs lines
254-287: missing file or failed injection leave everything untouched; a
successful injection rewrites that file and marks the index for removal. -/
def applyOne (suggestions : List Finding) (acc : ApplySt) (idx : Nat) :
    ApplySt :=
  match suggestions[idx]? with
  | none => acc
  | some item =>
    match acc.fsys item.filePath with
    | none => acc
    | some content =>
      match injectFinding item (content.splitOn '\n') with
      | none => acc
      | some newLines =>
        { fsys := fsWrite acc.fsys item.filePath (joinLines newLines),
          removed := acc.removed ++ [idx],
          applied := acc.applied + 1 }

/-- The `selected.forEach` loop of the issues action. -/
def applySelected (fsys : JsStr → Option JsStr) (suggestions : List Finding)
    (selected : List Nat) : ApplySt :=
  selected.foldl (applyOne suggestions) ⟨fsys, [], 0⟩

/-- The pruning filter of src/bin/commit-cat.mjs lines 290-292: drop the
entries whose position is in the removal set. -/
def filterOutIdx {α : Type} (l : List α) (removed : List Nat) : List α :=
  (l.enum.filter (fun p => !removed.contains p.1)).map Prod.snd

/-!  ## src/bin/commit-cat.mjs — the action loop (lines 172-318) -/

inductive ActionKind where
  | commit
  | edit
  | issues
  | cancel
deriving DecidableEq

/-- One round of user input consumed by a loop iteration: the menu choice and
the oracles for the effectful steps that choice performs. -/
structure UserTurn where
  action : ActionKind
  editorEnv : EditorEnv
  selected : List Nat
  commitNow : Bool
  commitSucceeds : Bool

structure LoopSt where
  message : JsStr
  suggestions : List Finding
  fsys : JsStr → Option JsStr

inductive StepOut where
  | next (st : LoopSt)
  | exited (code : Nat)

/-- Whether the issues option is rendered disabled,
src/bin/commit-cat.mjs line 188: `!review?.suggestions?.length`. -/
def annotateDisabled (suggestions : List Finding) : Bool :=
  suggestions.isEmpty

/-- One iteration of the action loop, src/bin/commit-cat.mjs lines 196-317:
`cancel` exits 0, `commit` exits 0 or 1, `edit` replaces the message and
loops, `issues` with an empty selection loops unchanged, and `issues` with a
nonempty selection applies and prunes, then either re-stages and loops (user
confirmed the commit-now prompt) or exits 0 (user declined). -/
def actionStep (st : LoopSt) (u : UserTurn) : StepOut :=
  match u.action with
  | .cancel => .exited 0
  | .commit => if u.commitSucceeds then .exited 0 else .exited 1
  | .edit =>
    .next { st with message := (editCommitMessage st.message u.editorEnv).1 }
  | .issues =>
    if u.selected.isEmpty then .next st
    else
      let r := applySelected st.fsys st.suggestions u.selected
      if u.commitNow then
        .next { message := st.message,
                suggestions := filterOutIdx st.suggestions r.removed,
                fsys := r.fsys }
      else .exited 0

/-!  ## src/bin/commit-cat.mjs — the 429 error display (lines 104-122)

The regex
`(\[429 Too Many Requests\].*?)(?=\s*\[\x7b"@type")` with the dot-all flag is
embedded directly: leftmost start position bearing the fixed literal, then the
minimal lazy extension whose whitespace-then-literal lookahead succeeds. -/

def lit429 : JsStr := js "[429 Too Many Requests]"

def litAtType : JsStr := js "[\x7b\"@type\""

/-- The lookahead: optional whitespace followed by the diagnostic-array
opening literal. -/
def lookahead429 : JsStr → Bool
  | [] => false
  | c :: t => leadMatch litAtType (c :: t) || (isJsWs c && lookahead429 t)

/-- Minimal number of characters the lazy `.*?` consumes before the lookahead
succeeds. -/
def lazyScan : JsStr → Option Nat
  | [] => if lookahead429 [] then some 0 else none
  | c :: t =>
    if lookahead429 (c :: t) then some 0
    else (lazyScan t).map (· + 1)

/-- Leftmost match of the 429 regex, returning the capture group. -/
def match429 : JsStr → Option JsStr
  | [] => none
  | c :: t =>
    if leadMatch lit429 (c :: t) then
      match lazyScan ((c :: t).drop lit429.length) with
      | some k => some ((c :: t).take (lit429.length + k))
      | none => match429 t
    else match429 t

/-- JavaScript `s.split(lit)[0]`: the prefix before the first occurrence of
the separator (the whole string when absent). -/
def beforeFirst (s lit : JsStr) : JsStr :=
  match s with
  | [] => []
  | c :: t => if leadMatch lit (c :: t) then [] else c :: beforeFirst t lit

/-- The 429 branch of the AI-error display, src/bin/commit-cat.mjs lines
107-122: when the message mentions 429 or Too Many Requests, show the trimmed
regex capture, falling back to the trimmed prefix before the diagnostic-array
literal.  The generic non-429 cleaning branch (lines 123-133) is outside the
modelled path and is reported as `none`. -/
def aiErrorDisplay429 (msg : JsStr) : Option JsStr :=
  if includesSub msg (js "429") || includesSub msg (js "Too Many Requests") then
    some
      (match match429 msg with
       | some cap =>
         if cap.isEmpty then jsTrim (beforeFirst msg litAtType)
         else jsTrim cap
       | none => jsTrim (beforeFirst msg litAtType))
  else none

/-!  ## Helper lemmas -/

theorem getVisualWidth_append (a b : JsStr) :
    getVisualWidth (a ++ b) = getVisualWidth a + getVisualWidth b := by
  simp [getVisualWidth]

theorem getVisualWidth_single (c : Char) :
    getVisualWidth [c] = charVisualWidth c := by
  simp [getVisualWidth]

theorem mem_intersperse_self {α : Type} (sep : α) :
    ∀ (L : List α), ∀ l ∈ L, l ∈ L.intersperse sep := by
  intro L
  induction L with
  | nil => intro l hl; simp at hl
  | cons a t ih =>
    intro l hl
    cases t with
    | nil => simpa using hl
    | cons b t' =>
      rcases List.mem_cons.mp hl with h | h
      · subst h; simp [List.intersperse]
      · simp only [List.intersperse, List.mem_cons]
        exact Or.inr (Or.inr (ih l h))

theorem mem_of_mem_splitOn {x : Char} {l s : JsStr}
    (hls : l ∈ s.splitOn x) {c : Char} (hc : c ∈ l) : c ∈ s := by
  have h : [x].intercalate (s.splitOn x) = s := List.intercalate_splitOn s x
  rw [← h]
  unfold List.intercalate
  rw [List.mem_flatten]
  exact ⟨l, mem_intersperse_self _ _ _ hls, hc⟩

/-- Every line emitted by the greedy wrap loop fits in the limit, as long as
every single character fits and the current line fits. -/
theorem wrapLoop_width_le (limit : Int) :
    ∀ (para cur : JsStr) (w : Nat),
      (∀ c ∈ para, (charVisualWidth c : Int) ≤ limit) →
      getVisualWidth cur = w → (w : Int) ≤ limit →
      ∀ l ∈ wrapLoop limit para cur w, (getVisualWidth l : Int) ≤ limit := by
  intro para
  induction para with
  | nil =>
    intro cur w hc hw hle l hl
    simp only [wrapLoop, List.mem_singleton] at hl
    subst hl
    rw [hw]
    exact hle
  | cons c rest ih =>
    intro cur w hc hw hle l hl
    simp only [wrapLoop] at hl
    split at hl
    · rcases List.mem_cons.mp hl with h | h
      · subst h; rw [hw]; exact hle
      · exact ih [c] (charVisualWidth c)
          (fun d hd => hc d (List.mem_cons_of_mem _ hd))
          (getVisualWidth_single c) (hc c (List.mem_cons_self _ _)) l h
    · next hgt =>
      exact ih (cur ++ [c]) (w + charVisualWidth c)
        (fun d hd => hc d (List.mem_cons_of_mem _ hd))
        (by rw [getVisualWidth_append, getVisualWidth_single, hw])
        (by push_cast; omega) l hl

/-!  ## Claim C9 — wrapText default limit -/

/-- Claim C9 as stated: with no explicit limit the wrapping limit is
min(80, terminalColumns - 12), and with unknown terminal dimensions the
fallback gives 80 columns of usable width. -/
def claimC9Stmt : Prop :=
  (∀ cols : Int, cols ≠ 0 → wrapLimit none (some cols) = min 80 (cols - 12))
  ∧ wrapLimit none none = 80

/-- C9 counterexample: with unknown terminal dimensions the computed limit is
min(80, 80 - 12) = 68 columns, not the 80 columns the claim asserts. -/
theorem C9_counterexample : ¬ claimC9Stmt := by
  intro h
  have h2 := h.2
  have h68 : wrapLimit none none = 68 := by decide
  rw [h68] at h2
  exact absurd h2 (by decide)

/-- C9 amended: with no explicit limit and a known (truthy) terminal width the
wrapping limit is min(80, terminalColumns - 12); with unknown terminal
dimensions the fallback substitutes an 80-column terminal, giving
min(80, 80 - 12) = 68 columns of usable width. -/
theorem C9_amended :
    (∀ cols : Int, cols ≠ 0 →
      wrapLimit none (some cols) = min 80 (cols - 12))
    ∧ wrapLimit none none = min 80 (80 - 12) := by
  constructor
  · intro cols hc
    simp [wrapLimit, numOr, effectiveCols, hc]
  · decide

/-- Witness for C9: a 100-column terminal yields limit min(80, 88) = 80. -/
theorem C9_witness : wrapLimit none (some 100) = min 80 (100 - 12) :=
  C9_amended.1 100 (by decide)

/-!  ## Claim C4 — wrapText width bound and the character width rule -/

/-- Claim C4 as stated: every line wrapped from an ASCII-only string with a
positive explicit limit L has visual width at most L, and in that width
computation every character whose code point exceeds 255 counts as width 2
(and every other character as width 1). -/
def claimC4Stmt : Prop :=
  (∀ (s : JsStr) (L : Int) (columns : Option Int),
    (∀ c ∈ s, c.toNat < 128) → 1 ≤ L →
    ∀ line ∈ wrapTextLines s (some L) columns, (getVisualWidth line : Int) ≤ L)
  ∧ (∀ c : Char, 255 < c.toNat → getVisualWidth [c] = 2)
  ∧ (∀ c : Char, c.toNat ≤ 255 → getVisualWidth [c] = 1)

/-- C4 counterexample: a supplementary-plane character (code point 0x1F600,
above 255) has computed width 4, not 2 — the source iterates UTF-16 code
units, and both surrogates of such a character exceed 255. -/
theorem C4_counterexample : ¬ claimC4Stmt := by
  intro h
  have h2 := h.2.1 (Char.ofNat 0x1F600) (by decide)
  have h4 : getVisualWidth [Char.ofNat 0x1F600] = 4 := by decide
  rw [h4] at h2
  exact absurd h2 (by decide)

/-- C4 amended: the ASCII wrap bound holds as claimed; in the width
computation each UTF-16 code unit above 255 counts as width 2, so a character
of the basic multilingual plane above the Latin-1 range counts as 2, any
Latin-1 (hence any ASCII) character counts as 1, and a supplementary-plane
character (two surrogate units) counts as 4. -/
theorem C4_amended :
    (∀ (s : JsStr) (L : Int) (columns : Option Int),
      (∀ c ∈ s, c.toNat < 128) → 1 ≤ L →
      ∀ line ∈ wrapTextLines s (some L) columns,
        (getVisualWidth line : Int) ≤ L)
    ∧ (∀ c : Char, c.toNat ≤ 255 → getVisualWidth [c] = 1)
    ∧ (∀ c : Char, 255 < c.toNat → c.toNat < 0x10000 → getVisualWidth [c] = 2)
    ∧ (∀ c : Char, 0x10000 ≤ c.toNat → getVisualWidth [c] = 4) := by
  refine ⟨?_, ?_, ?_, ?_⟩
  · intro s L columns hascii hL line hline
    have hLne : L ≠ 0 := by omega
    have hlim : wrapLimit (some L) columns = L := by
      simp [wrapLimit, numOr, hLne]
    simp only [wrapTextLines, hlim, List.mem_flatten, List.mem_map] at hline
    obtain ⟨_, ⟨para, hpara, rfl⟩, hmem⟩ := hline
    refine wrapLoop_width_le L para [] 0 ?_ (by simp [getVisualWidth]) ?_ line hmem
    · intro c hc
      have : c ∈ s := mem_of_mem_splitOn hpara hc
      have h128 := hascii c this
      have : charVisualWidth c = 1 := by
        unfold charVisualWidth
        rw [if_neg (by omega), if_neg (by omega)]
      rw [this]
      omega
    · omega
  · intro c hc
    rw [getVisualWidth_single]
    unfold charVisualWidth
    rw [if_neg (by omega), if_neg (by omega)]
  · intro c hc1 hc2
    rw [getVisualWidth_single]
    unfold charVisualWidth
    rw [if_neg (by omega), if_pos (by omega)]
  · intro c hc
    rw [getVisualWidth_single]
    unfold charVisualWidth
    rw [if_pos (by omega)]

/-- Witness for C4: wrapping the ASCII string "abcde" at limit 2 yields lines
of width at most 2, and the concrete width-rule instances evaluate. -/
theorem C4_witness :
    (∀ line ∈ wrapTextLines (js "abcde") (some 2) none,
      (getVisualWidth line : Int) ≤ 2)
    ∧ getVisualWidth [Char.ofNat 65] = 1
    ∧ getVisualWidth [Char.ofNat 0xD55C] = 2
    ∧ getVisualWidth [Char.ofNat 0x1F600] = 4 :=
  ⟨C4_amended.1 (js "abcde") 2 none (by decide) (by decide),
   C4_amended.2.1 (Char.ofNat 65) (by decide),
   C4_amended.2.2.1 (Char.ofNat 0xD55C) (by decide) (by decide),
   C4_amended.2.2.2 (Char.ofNat 0x1F600) (by decide)⟩

/-!  ## Claim C8 — temp-file lifecycle of editCommitMessage -/

/-- Claim C8 as stated: after editCommitMessage returns, the temporary file
never remains on disk, on every exit path including editor failure. -/
def claimC8Stmt : Prop :=
  ∀ (initial : JsStr) (env : EditorEnv),
    (editCommitMessage initial env).2 = false

/-- C8 counterexample: when the editor invocation throws, the catch block of
src/src/git.js lines 63-66 returns the initial message without unlinking, so
the temporary file remains on disk. -/
theorem C8_counterexample : ¬ claimC8Stmt := by
  intro h
  have := h (js "m") ⟨true, true, none⟩
  simp [editCommitMessage] at this

/-- C8 amended: the temporary file is deleted on every exit path on which no
exception escapes the editor launch or the read-back (including the path
where the editor already deleted the file); when the editor invocation or the
read-back throws, the function returns the initial message and the temporary
file remains on disk. -/
theorem C8_amended :
    ∀ (initial : JsStr) (env : EditorEnv),
      (env.spawnThrows = false →
        (env.tempExistsAfterEditor = true → env.readResult.isSome) →
        (editCommitMessage initial env).2 = false)
      ∧ (env.spawnThrows = true →
          editCommitMessage initial env = (initial, true)) := by
  intro initial env
  constructor
  · intro hspawn hread
    unfold editCommitMessage
    rw [hspawn]
    simp only [Bool.false_eq_true, if_false]
    by_cases hex : env.tempExistsAfterEditor = true
    · rw [if_pos hex]
      rcases Option.isSome_iff_exists.mp (hread hex) with ⟨v, hv⟩
      rw [hv]
    · rw [if_neg hex]
  · intro hspawn
    unfold editCommitMessage
    rw [hspawn]
    simp

/-- Witness for C8: a successful editor round-trip deletes the temp file and
returns the trimmed content; a throwing editor leaves it on disk. -/
theorem C8_witness :
    (editCommitMessage (js "m") ⟨false, true, some (js " hi ")⟩).2 = false
    ∧ editCommitMessage (js "m") ⟨true, true, none⟩ = (js "m", true) :=
  ⟨(C8_amended (js "m") ⟨false, true, some (js " hi ")⟩).1 rfl
      (fun _ => by decide),
   (C8_amended (js "m") ⟨true, true, none⟩).2 rfl⟩

/-!  ## Claim C3 — the 429 error message extraction -/

/-- C3: for a transport-error message that is the human-readable text
"[429 Too Many Requests] Quota exceeded" followed by a structured-diagnostic
JSON array opening, the display logic shows exactly the human-readable
portion, whatever the diagnostic payload is. -/
theorem C3_thm (rest : JsStr) :
    aiErrorDisplay429
      (js "[429 Too Many Requests] Quota exceeded [\x7b\"@type\"" ++ rest)
      = some (js "[429 Too Many Requests] Quota exceeded") := rfl

/-!  ## Claim C5 — per-file filter order of the diff collector -/

/-- C5: for a staged file whose stat and diff fetch both succeed, the per-file
filters apply in the order ignored, binary, too large, diff too large, and a
file matching an earlier filter receives that earlier filter's reason. -/
theorem C5_thm (fsys : JsStr → FileLookup) (file : JsStr) (sz : Nat)
    (d : JsStr) (hs : (fsys file).statSize = some sz)
    (hd : (fsys file).diffText = some d) :
    (IGNORE_PATTERNS.any (fun pat => includesSub file pat) = true →
      getFileDiff fsys file = .skip (js "ignored"))
    ∧ (IGNORE_PATTERNS.any (fun pat => includesSub file pat) = false →
        BINARY_EXTENSIONS.contains (toLowerStr (extname file)) = true →
        getFileDiff fsys file = .skip (js "binary"))
    ∧ (IGNORE_PATTERNS.any (fun pat => includesSub file pat) = false →
        BINARY_EXTENSIONS.contains (toLowerStr (extname file)) = false →
        MAX_FILE_SIZE < sz →
        getFileDiff fsys file = .skip (js "too large"))
    ∧ (IGNORE_PATTERNS.any (fun pat => includesSub file pat) = false →
        BINARY_EXTENSIONS.contains (toLowerStr (extname file)) = false →
        sz ≤ MAX_FILE_SIZE → MAX_FILE_SIZE < d.length →
        getFileDiff fsys file = .skip (js "diff too large"))
    ∧ (IGNORE_PATTERNS.any (fun pat => includesSub file pat) = false →
        BINARY_EXTENSIONS.contains (toLowerStr (extname file)) = false →
        sz ≤ MAX_FILE_SIZE → d.length ≤ MAX_FILE_SIZE →
        getFileDiff fsys file = .content d) := by
  refine ⟨?_, ?_, ?_, ?_, ?_⟩
  · intro h1
    simp only [getFileDiff, hs]
    rw [if_pos h1]
  · intro h1 h2
    simp only [getFileDiff, hs]
    rw [if_neg (by rw [h1]; exact Bool.false_ne_true), if_pos h2]
  · intro h1 h2 h3
    simp only [getFileDiff, hs]
    rw [if_neg (by rw [h1]; exact Bool.false_ne_true),
      if_neg (by rw [h2]; exact Bool.false_ne_true), if_pos h3]
  · intro h1 h2 h3 h4
    simp only [getFileDiff, hs, hd]
    rw [if_neg (by rw [h1]; exact Bool.false_ne_true),
      if_neg (by rw [h2]; exact Bool.false_ne_true), if_neg (by omega),
      if_pos h4]
  · intro h1 h2 h3 h4
    simp only [getFileDiff, hs, hd]
    rw [if_neg (by rw [h1]; exact Bool.false_ne_true),
      if_neg (by rw [h2]; exact Bool.false_ne_true), if_neg (by omega),
      if_neg (by omega)]

/-- Witness for C5: a path under dist/ with a tiny diff is skipped as
"ignored" even though its extension is also in the binary set. -/
theorem C5_witness :
    getFileDiff (fun _ => ⟨some 1, some (js "x")⟩) (js "dist/a.png")
      = DiffResult.skip (js "ignored") :=
  (C5_thm (fun _ => ⟨some 1, some (js "x")⟩) (js "dist/a.png") 1 (js "x")
      rfl rfl).1 (by decide)

/-!  ## Claim C2 — injection priority order -/

/-- The context branch of the injector finds no insertion point: the finding
has no context line, the context string is empty (falsy), or no file line
contains the trimmed context. -/
def contextMiss (item : Finding) (lines : List JsStr) : Prop :=
  match item.contextLine with
  | none => True
  | some ctx =>
    ctx = [] ∨ ∀ l ∈ lines, includesSub l (jsTrim ctx) = false

/-- The line-number branch of the injector fails: the finding has no line
number, the string is empty (falsy), it does not parse, or the parsed value
selects no truthy line (non-positive, out of range, or an empty line). -/
def lineMiss (item : Finding) (lines : List JsStr) : Prop :=
  match item.lineNumber with
  | none => True
  | some ln =>
    ln = [] ∨ jsParseInt ln = none ∨
    ∀ n : Int, jsParseInt ln = some n →
      n < 1 ∨ (lines.length : Int) < n ∨ lines.getD (n - 1).toNat [] = []

/-- Claim C2 as stated, specialised to its fallback clause: whenever the
context branch finds nothing, the line number parses to a positive integer n,
and the file has a line at 1-based position n, the injection succeeds. -/
def claimC2Stmt : Prop :=
  ∀ (item : Finding) (lines : List JsStr) (ln : JsStr) (n : Int),
    contextMiss item lines →
    item.lineNumber = some ln → jsParseInt ln = some n →
    1 ≤ n → n ≤ (lines.length : Int) →
    (injectFinding item lines).isSome = true

/-- C2 counterexample: a finding with lineNumber "2" and no contextLine
against the file lines ["a", "", "b"] — line 2 exists but is the empty
string, the source's truthiness test of the array element rejects it, and the
injection fails. -/
theorem C2_counterexample : ¬ claimC2Stmt := by
  intro h
  have h2 := h ⟨js "m", js "a.js", some (js "2"), none⟩ [js "a", [], js "b"]
    (js "2") 2 trivial rfl (by decide) (by decide) (by decide)
  rw [show injectFinding ⟨js "m", js "a.js", some (js "2"), none⟩
      [js "a", [], js "b"] = none from by decide] at h2
  exact absurd h2 (by decide)

/-- C2 amended: the strict priority order holds, with two corrections forced
by the source's JavaScript truthiness tests — the context branch requires a
non-empty context string, and the line-number branch requires the targeted
1-based line to exist *and be non-empty*; line numbers are read with parseInt
(leading integer prefix).  Otherwise the injection fails. -/
theorem C2_amended (item : Finding) (lines : List JsStr) :
    (∀ (ctx : JsStr) (i : Nat),
      item.contextLine = some ctx → ctx ≠ [] →
      (hi : i < lines.length) →
      includesSub (lines.getD i []) (jsTrim ctx) = true →
      (∀ j, j < i → includesSub (lines.getD j []) (jsTrim ctx) = false) →
      injectFinding item lines =
        some (lines.take i
          ++ [leadingWS (lines.getD i [])
              ++ getCommentSyntax item.filePath item.message]
          ++ lines.drop i))
    ∧ (∀ (ln : JsStr) (n : Int),
        contextMiss item lines →
        item.lineNumber = some ln → ln ≠ [] → jsParseInt ln = some n →
        1 ≤ n → n ≤ (lines.length : Int) →
        lines.getD (n - 1).toNat [] ≠ [] →
        injectFinding item lines =
          some (lines.take (n - 1).toNat
            ++ [getCommentSyntax item.filePath item.message]
            ++ lines.drop (n - 1).toNat))
    ∧ (contextMiss item lines → lineMiss item lines →
        injectFinding item lines = none) := by
  have hCtxNone : contextMiss item lines →
      (match item.contextLine with
        | some ctx =>
          if ctx.isEmpty then none
          else
            match lines.findIdx? (fun l => includesSub l (jsTrim ctx)) with
            | some i =>
              some (lines.take i
                ++ [leadingWS (lines.getD i [])
                    ++ getCommentSyntax item.filePath item.message]
                ++ lines.drop i)
            | none => none
        | none => none) = (none : Option (List JsStr)) := by
    intro hmiss
    unfold contextMiss at hmiss
    match hcl : item.contextLine with
    | none => rfl
    | some ctx =>
      rw [hcl] at hmiss
      rcases hmiss with h | h
      · subst h; rfl
      · have : lines.findIdx? (fun l => includesSub l (jsTrim ctx)) = none :=
          List.findIdx?_eq_none_iff.mpr h
        simp only [this]
        split <;> rfl
  refine ⟨?_, ?_, ?_⟩
  · intro ctx i hcl hne hi hhit hmin
    have hfind : lines.findIdx? (fun l => includesSub l (jsTrim ctx))
        = some i := by
      rw [List.findIdx?_eq_some_iff_getElem]
      refine ⟨hi, ?_, ?_⟩
      · rw [← List.getD_eq_getElem lines [] hi]; exact hhit
      · intro j hj
        have hthis := hmin j hj
        rw [← List.getD_eq_getElem lines [] (Nat.lt_trans hj hi), hthis]
        simp
    have hempty : ctx.isEmpty = false := by
      cases ctx with
      | nil => exact absurd rfl hne
      | cons a t => rfl
    unfold injectFinding
    rw [hcl]
    simp only [hempty, Bool.false_eq_true, if_false, hfind]
  · intro ln n hmiss hln hlnne hparse h1 h2 hne
    simp only [injectFinding]
    rw [hCtxNone hmiss]
    have hempty : ln.isEmpty = false := by
      cases ln with
      | nil => exact absurd rfl hlnne
      | cons a t => rfl
    have hfalse : (lines.getD (n - 1).toNat []).isEmpty = false := by
      rcases hval : lines.getD (n - 1).toNat [] with _ | ⟨a, t⟩
      · exact absurd hval hne
      · rfl
    simp only [hln, hempty, Bool.false_eq_true, if_false, hparse]
    rw [if_pos ⟨by omega, by omega⟩]
    simp only [hfalse, Bool.false_eq_true, if_false]
  · intro hmiss hlmiss
    simp only [injectFinding]
    rw [hCtxNone hmiss]
    unfold lineMiss at hlmiss
    match hln : item.lineNumber with
    | none => rfl
    | some ln =>
      rw [hln] at hlmiss
      simp only [hln]
      rcases hlmiss with h | h | h
      · subst h; rfl
      · by_cases he : ln.isEmpty = true
        · simp only [he, if_true]
        · simp only [eq_false_of_ne_true he, Bool.false_eq_true, if_false, h]
      · by_cases he : ln.isEmpty = true
        · simp only [he, if_true]
        · simp only [eq_false_of_ne_true he, Bool.false_eq_true, if_false]
          split
          · rename_i n hp
            rcases h n hp with hx | hx | hx
            · rw [if_neg (by rintro ⟨ha, _⟩; omega)]
            · rw [if_neg (by rintro ⟨ha, hb⟩; omega)]
            · by_cases hrange : 0 ≤ n - 1 ∧ (n - 1).toNat < lines.length
              · rw [if_pos hrange]
                have hx2 : (lines.getD (n - 1).toNat []).isEmpty = true := by
                  rw [hx]; rfl
                simp only [hx2, if_true]
              · rw [if_neg hrange]
          · rfl

/-- Witness for C2: the context branch inserts before the matched line with
its indentation copied; the fallback inserts before line 2 of a three-line
file with a non-empty target line. -/
theorem C2_witness :
    injectFinding ⟨js "m", js "a.py", none, some (js " return 1; ")⟩
        [js "function f() \x7b", js "  return 1;", js "\x7d"]
      = some [js "function f() \x7b", js "  # TODO: [AI] m",
          js "  return 1;", js "\x7d"]
    ∧ injectFinding ⟨js "m", js "a.js", some (js "2"), none⟩
        [js "a", js "x", js "b"]
      = some [js "a", js "// TODO: [AI] m", js "x", js "b"] := by
  constructor
  · have h := (C2_amended ⟨js "m", js "a.py", none, some (js " return 1; ")⟩
      [js "function f() \x7b", js "  return 1;", js "\x7d"]).1
      (js " return 1; ") 1 rfl (by decide) (by decide) (by decide)
      (by intro j hj; interval_cases j; decide)
    simpa using h
  · have h := (C2_amended ⟨js "m", js "a.js", some (js "2"), none⟩
      [js "a", js "x", js "b"]).2.1 (js "2") 2 trivial rfl (by decide)
      (by decide) (by decide) (by decide) (by decide)
    simpa using h

/-!  ## Claim C6 — re-entrance of the action menu -/

/-- Claim C6 as stated (re-entrance half): after the annotate action
completes, control always returns to the action menu rather than
terminating. -/
def claimC6Stmt : Prop :=
  ∀ (st : LoopSt) (u : UserTurn), u.action = .issues →
    ∃ st', actionStep st u = .next st'

/-- C6 counterexample: an annotate round in which the user declines the
commit-now confirmation ends the process (exit code 0) instead of returning
to the menu — src/bin/commit-cat.mjs lines 309-315. -/
theorem C6_counterexample : ¬ claimC6Stmt := by
  intro h
  obtain ⟨st', hst⟩ := h ⟨js "m", [], fun _ => none⟩
    ⟨.issues, ⟨false, true, none⟩, [0], false, true⟩ rfl
  simp [actionStep] at hst

/-- C6 amended: the menu is re-entrant for edit always, and for annotate
whenever the user selects nothing or confirms the commit-now prompt;
declining that prompt ends the run with exit code 0.  The annotate option is
disabled exactly when no suggestions remain. -/
theorem C6_amended (st : LoopSt) (u : UserTurn) :
    (u.action = .edit → ∃ st', actionStep st u = .next st')
    ∧ (u.action = .issues → u.selected = [] → actionStep st u = .next st)
    ∧ (u.action = .issues → u.selected ≠ [] → u.commitNow = true →
        actionStep st u = .next
          { message := st.message,
            suggestions := filterOutIdx st.suggestions
              (applySelected st.fsys st.suggestions u.selected).removed,
            fsys := (applySelected st.fsys st.suggestions u.selected).fsys })
    ∧ (u.action = .issues → u.selected ≠ [] → u.commitNow = false →
        actionStep st u = .exited 0)
    ∧ (annotateDisabled st.suggestions = true ↔ st.suggestions = []) := by
  refine ⟨?_, ?_, ?_, ?_, ?_⟩
  · intro h
    refine ⟨{ st with
      message := (editCommitMessage st.message u.editorEnv).1 }, ?_⟩
    simp only [actionStep, h]
  · intro ha hsel
    simp only [actionStep, ha, hsel, List.isEmpty_nil, if_true]
  · intro ha hsel hcn
    have hne : u.selected.isEmpty = false := by
      cases hv : u.selected with
      | nil => exact absurd hv hsel
      | cons a t => rfl
    simp only [actionStep, ha, hne, Bool.false_eq_true, if_false, hcn,
      if_true]
  · intro ha hsel hcn
    have hne : u.selected.isEmpty = false := by
      cases hv : u.selected with
      | nil => exact absurd hv hsel
      | cons a t => rfl
    simp only [actionStep, ha, hne, Bool.false_eq_true, if_false, hcn]
  · simp [annotateDisabled, List.isEmpty_iff]

/-- Witness for C6: a concrete edit round loops, a declined commit-now round
exits with code 0, and an empty suggestion list disables annotate. -/
theorem C6_witness :
    (∃ st', actionStep ⟨js "m", [], fun _ => none⟩
      ⟨.edit, ⟨false, true, some (js "n")⟩, [], true, true⟩ = .next st')
    ∧ actionStep ⟨js "m", [], fun _ => none⟩
        ⟨.issues, ⟨false, true, none⟩, [0], false, true⟩ = .exited 0
    ∧ (annotateDisabled ([] : List Finding) = true ↔ ([] : List Finding) = []) :=
  ⟨(C6_amended ⟨js "m", [], fun _ => none⟩
      ⟨.edit, ⟨false, true, some (js "n")⟩, [], true, true⟩).1 rfl,
   (C6_amended ⟨js "m", [], fun _ => none⟩
      ⟨.issues, ⟨false, true, none⟩, [0], false, true⟩).2.2.2.1 rfl
      (by decide) rfl,
   (C6_amended ⟨js "m", [], fun _ => none⟩
      ⟨.edit, ⟨false, true, none⟩, [], true, true⟩).2.2.2.2⟩

/-!  ## Claim C7 — frame effect and pruning of the injector -/

/-- Packaged induction invariant for the issues-action fold: the removal list
grows by a sublist of the processed selection, each appended index denotes an
existing suggestion, files named by no applied finding keep their contents,
and the applied counter counts the appended indices. -/
theorem applyFold_spec (suggestions : List Finding) :
    ∀ (sel : List Nat) (acc : ApplySt),
      ∃ δ : List Nat,
        (sel.foldl (applyOne suggestions) acc).removed = acc.removed ++ δ
        ∧ δ.Sublist sel
        ∧ (∀ i ∈ δ, ∃ item, suggestions[i]? = some item)
        ∧ (∀ p : JsStr,
            (∀ i ∈ δ, ∀ item, suggestions[i]? = some item →
              item.filePath ≠ p) →
            (sel.foldl (applyOne suggestions) acc).fsys p = acc.fsys p)
        ∧ (sel.foldl (applyOne suggestions) acc).applied
            = acc.applied + δ.length := by
  intro sel
  induction sel with
  | nil =>
    intro acc
    exact ⟨[], by simp, List.nil_sublist _, by simp, fun p _ => rfl, by simp⟩
  | cons idx rest ih =>
    intro acc
    simp only [List.foldl_cons]
    rcases hget : suggestions[idx]? with _ | item
    · have heq : applyOne suggestions acc idx = acc := by
        simp [applyOne, hget]
      rw [heq]
      obtain ⟨δ, h1, h2, h3, h4, h5⟩ := ih acc
      exact ⟨δ, h1, h2.cons _, h3, h4, h5⟩
    · rcases hfs : acc.fsys item.filePath with _ | content
      · have heq : applyOne suggestions acc idx = acc := by
          simp [applyOne, hget, hfs]
        rw [heq]
        obtain ⟨δ, h1, h2, h3, h4, h5⟩ := ih acc
        exact ⟨δ, h1, h2.cons _, h3, h4, h5⟩
      · rcases hinj : injectFinding item (content.splitOn '\n')
            with _ | newLines
        · have heq : applyOne suggestions acc idx = acc := by
            simp [applyOne, hget, hfs, hinj]
          rw [heq]
          obtain ⟨δ, h1, h2, h3, h4, h5⟩ := ih acc
          exact ⟨δ, h1, h2.cons _, h3, h4, h5⟩
        · have heq : applyOne suggestions acc idx =
              { fsys := fsWrite acc.fsys item.filePath (joinLines newLines),
                removed := acc.removed ++ [idx],
                applied := acc.applied + 1 } := by
            simp [applyOne, hget, hfs, hinj]
          rw [heq]
          obtain ⟨δ, h1, h2, h3, h4, h5⟩ := ih
            { fsys := fsWrite acc.fsys item.filePath (joinLines newLines),
              removed := acc.removed ++ [idx],
              applied := acc.applied + 1 }
          refine ⟨idx :: δ, ?_, h2.cons₂ _, ?_, ?_, ?_⟩
          · rw [h1]
            simp
          · intro i hi
            rcases List.mem_cons.mp hi with h | h
            · exact ⟨item, h ▸ hget⟩
            · exact h3 i h
          · intro p hp
            rw [h4 p (fun i hi it hit =>
              hp i (List.mem_cons_of_mem _ hi) it hit)]
            have hne : item.filePath ≠ p :=
              hp idx (List.mem_cons_self _ _) item hget
            show fsWrite acc.fsys item.filePath (joinLines newLines) p
              = acc.fsys p
            simp only [fsWrite]
            rw [if_neg (fun hc => hne hc.symm)]
          · rw [h5]
            show acc.applied + 1 + δ.length = acc.applied + (idx :: δ).length
            simp only [List.length_cons]
            omega

/-- Complement counting for a Bool predicate over a list. -/
theorem countP_split (q : Nat → Bool) (l : List Nat) :
    l.countP q + l.countP (fun i => !q i) = l.length := by
  induction l with
  | nil => rfl
  | cons a t ih =>
    simp only [List.countP_cons, List.length_cons]
    by_cases h : q a = true
    · simp only [h, if_true, Bool.not_true, Bool.false_eq_true, if_false]
      omega
    · have hf : q a = false := eq_false_of_ne_true h
      simp only [hf, Bool.false_eq_true, if_false, Bool.not_false, if_true]
      omega

/-- Dropping the entries at the removed positions shrinks the list by exactly
the number of in-range removed positions. -/
theorem filterOutIdx_length_add {α : Type} (l : List α) (rem : List Nat) :
    (filterOutIdx l rem).length
      + (List.range l.length).countP (fun i => rem.contains i) = l.length := by
  unfold filterOutIdx
  rw [List.length_map, ← List.countP_eq_length_filter]
  have h1 : l.enum.countP (fun p => !rem.contains p.1)
      = (l.enum.map Prod.fst).countP (fun i => !rem.contains i) := by
    rw [List.countP_map]
    rfl
  rw [h1, List.enum_eq_enumFrom, List.enumFrom_map_fst, ← List.range_eq_range']
  have h2 := countP_split (fun i => rem.contains i) (List.range l.length)
  rw [List.length_range] at h2
  omega

/-- C7: the issues action rewrites only the files of successfully applied
findings (a failed match leaves contents unchanged), every applied index
denotes an existing suggestion chosen by the user, the removal list is
duplicate-free for a duplicate-free selection, its length is counted out of
the pruned suggestion list, and the applied counter equals the number of
removed findings — so no finding can be applied twice in a run. -/
theorem C7_thm (fsys : JsStr → Option JsStr) (suggestions : List Finding)
    (selected : List Nat) :
    (∀ p : JsStr,
      (∀ i ∈ (applySelected fsys suggestions selected).removed,
        ∀ item, suggestions[i]? = some item → item.filePath ≠ p) →
      (applySelected fsys suggestions selected).fsys p = fsys p)
    ∧ (∀ i ∈ (applySelected fsys suggestions selected).removed,
        i ∈ selected ∧ ∃ item, suggestions[i]? = some item)
    ∧ (selected.Nodup →
        (applySelected fsys suggestions selected).removed.Nodup)
    ∧ (filterOutIdx suggestions
          (applySelected fsys suggestions selected).removed).length
        + (List.range suggestions.length).countP
            (fun i => (applySelected fsys suggestions selected).removed.contains i)
        = suggestions.length
    ∧ (applySelected fsys suggestions selected).applied
        = (applySelected fsys suggestions selected).removed.length := by
  obtain ⟨δ, h1, h2, h3, h4, h5⟩ := applyFold_spec suggestions selected
    ⟨fsys, [], 0⟩
  have hδ : (applySelected fsys suggestions selected).removed = δ := by
    rw [show applySelected fsys suggestions selected
        = selected.foldl (applyOne suggestions) ⟨fsys, [], 0⟩ from rfl, h1]
    simp
  refine ⟨?_, ?_, ?_, filterOutIdx_length_add _ _, ?_⟩
  · intro p hp
    rw [hδ] at hp
    exact h4 p hp
  · intro i hi
    rw [hδ] at hi
    exact ⟨h2.mem hi, h3 i hi⟩
  · intro hnd
    rw [hδ]
    exact h2.nodup hnd
  · rw [hδ]
    rw [show applySelected fsys suggestions selected
        = selected.foldl (applyOne suggestions) ⟨fsys, [], 0⟩ from rfl, h5]
    simp

/-- Witness for C7: one applicable and one failing finding — only the file of
the applied one changes, the untouched path keeps its contents, and exactly
the applied index is pruned. -/
theorem C7_witness :
    (applySelected
        (fun p => if p = js "a.js" then some (js "x") else none)
        [⟨js "m", js "missing.js", some (js "1"), none⟩]
        [0]).fsys (js "a.js") = some (js "x")
    ∧ (applySelected
        (fun p => if p = js "a.js" then some (js "x") else none)
        [⟨js "m", js "missing.js", some (js "1"), none⟩]
        [0]).applied
      = (applySelected
          (fun p => if p = js "a.js" then some (js "x") else none)
          [⟨js "m", js "missing.js", some (js "1"), none⟩]
          [0]).removed.length :=
  ⟨(C7_thm (fun p => if p = js "a.js" then some (js "x") else none)
      [⟨js "m", js "missing.js", some (js "1"), none⟩] [0]).1 (js "a.js")
      (by decide),
   (C7_thm (fun p => if p = js "a.js" then some (js "x") else none)
      [⟨js "m", js "missing.js", some (js "1"), none⟩] [0]).2.2.2.2⟩

/-!  ## Claim C1 — the total-size cap of the collection loop -/

theorem sumIncluded_append (a b : List (JsStr × Fate)) :
    sumIncluded (a ++ b) = sumIncluded a + sumIncluded b := by
  simp [sumIncluded]

/-- Evaluation lemma: the fully-passing branch of getFileDiff. -/
theorem getFileDiff_content (fsys : JsStr → FileLookup) (file : JsStr)
    (sz : Nat) (d : JsStr) (h : fsys file = ⟨some sz, some d⟩)
    (hig : IGNORE_PATTERNS.any (fun pat => includesSub file pat) = false)
    (hbin : BINARY_EXTENSIONS.contains (toLowerStr (extname file)) = false)
    (hsz : ¬ MAX_FILE_SIZE < sz) (hd : ¬ MAX_FILE_SIZE < d.length) :
    getFileDiff fsys file = .content d := by
  simp only [getFileDiff, h]
  rw [if_neg (by rw [hig]; exact Bool.false_ne_true),
    if_neg (by rw [hbin]; exact Bool.false_ne_true), if_neg hsz, if_neg hd]

/-- Evaluation lemma: a file whose fetched diff fits both caps is recorded
with its length added to the running total. -/
theorem collectStep_content (fsys : JsStr → FileLookup) (st : CollectSt)
    (file d : JsStr) (hlt : st.totalSize < MAX_TOTAL_SIZE)
    (hgf : getFileDiff fsys file = .content d)
    (hcap : st.totalSize + d.length ≤ MAX_TOTAL_SIZE) :
    (collectStep fsys st file).totalSize = st.totalSize + d.length
    ∧ (collectStep fsys st file).trace
        = st.trace ++ [(file, Fate.included d.length)] := by
  simp only [collectStep, hgf]
  rw [if_neg (by omega), if_neg (by omega)]
  exact ⟨rfl, rfl⟩

/-- Evaluation lemma: a fetched diff that would push the running total over
the cap is skipped with reason "Total Limit", leaving the total unchanged. -/
theorem collectStep_cap (fsys : JsStr → FileLookup) (st : CollectSt)
    (file d : JsStr) (hlt : st.totalSize < MAX_TOTAL_SIZE)
    (hgf : getFileDiff fsys file = .content d)
    (hcap : MAX_TOTAL_SIZE < st.totalSize + d.length) :
    (collectStep fsys st file).totalSize = st.totalSize
    ∧ (collectStep fsys st file).trace
        = st.trace ++ [(file, Fate.skipped (js "Total Limit"))] := by
  simp only [collectStep, hgf]
  rw [if_neg (by omega), if_pos (by omega)]
  exact ⟨rfl, rfl⟩

/-- Invariant preservation by a skip record. -/
theorem skipMark_inv (st : CollectSt) (file reason : JsStr)
    (h1 : st.totalSize ≤ MAX_TOTAL_SIZE)
    (h2 : st.totalSize = sumIncluded st.trace) :
    (skipMark st file reason).totalSize ≤ MAX_TOTAL_SIZE
    ∧ (skipMark st file reason).totalSize
        = sumIncluded (skipMark st file reason).trace := by
  refine ⟨h1, ?_⟩
  show st.totalSize = sumIncluded (st.trace ++ [(file, Fate.skipped reason)])
  rw [sumIncluded_append, h2]
  rfl

/-- One collection step preserves the budget invariant: the running total
stays at or below the cap and equals the sum of the included lengths. -/
theorem collectStep_inv (fsys : JsStr → FileLookup) (st : CollectSt)
    (file : JsStr) (h1 : st.totalSize ≤ MAX_TOTAL_SIZE)
    (h2 : st.totalSize = sumIncluded st.trace) :
    (collectStep fsys st file).totalSize ≤ MAX_TOTAL_SIZE
    ∧ (collectStep fsys st file).totalSize
        = sumIncluded (collectStep fsys st file).trace := by
  rcases hgf : getFileDiff fsys file with r | d
  · simp only [collectStep, hgf]
    split
    · exact skipMark_inv st file _ h1 h2
    · exact skipMark_inv st file _ h1 h2
  · simp only [collectStep, hgf]
    split
    · exact skipMark_inv st file _ h1 h2
    · split
      · exact skipMark_inv st file _ h1 h2
      · rename_i hcap
        refine ⟨by show st.totalSize + d.length ≤ MAX_TOTAL_SIZE; omega, ?_⟩
        show st.totalSize + d.length
          = sumIncluded (st.trace ++ [(file, Fate.included d.length)])
        rw [sumIncluded_append, ← h2]
        show st.totalSize + d.length = st.totalSize + (d.length + 0)
        omega

/-- The budget invariant carried through the whole loop. -/
theorem collect_inv (fsys : JsStr → FileLookup) :
    ∀ (fs : List JsStr) (st : CollectSt),
      st.totalSize ≤ MAX_TOTAL_SIZE →
      st.totalSize = sumIncluded st.trace →
      (fs.foldl (collectStep fsys) st).totalSize ≤ MAX_TOTAL_SIZE
      ∧ (fs.foldl (collectStep fsys) st).totalSize
          = sumIncluded (fs.foldl (collectStep fsys) st).trace := by
  intro fs
  induction fs with
  | nil => intro st h1 h2; exact ⟨h1, h2⟩
  | cons f rest ih =>
    intro st h1 h2
    simp only [List.foldl_cons]
    obtain ⟨g1, g2⟩ := collectStep_inv fsys st f h1 h2
    exact ih _ g1 g2

/-- Once the running total has reached the cap, every remaining file is
skipped with reason "Total Limit", regardless of its own size, and the total
never moves again. -/
theorem collect_capped_tail (fsys : JsStr → FileLookup) :
    ∀ (fs : List JsStr) (st : CollectSt),
      MAX_TOTAL_SIZE ≤ st.totalSize →
      (fs.foldl (collectStep fsys) st).trace
        = st.trace ++ fs.map (fun f => (f, Fate.skipped (js "Total Limit")))
      ∧ (fs.foldl (collectStep fsys) st).totalSize = st.totalSize := by
  intro fs
  induction fs with
  | nil => intro st h; simp
  | cons f rest ih =>
    intro st h
    simp only [List.foldl_cons]
    have hstep : collectStep fsys st f = skipMark st f (js "Total Limit") := by
      unfold collectStep
      rw [if_pos h]
    rw [hstep]
    obtain ⟨ha, hb⟩ := ih (skipMark st f (js "Total Limit")) h
    refine ⟨?_, hb⟩
    rw [ha]
    show st.trace ++ [(f, Fate.skipped (js "Total Limit"))] ++ _ = _
    simp

/-- Claim C1 as stated (skip-tail half): once a file is skipped with reason
"Total Limit" — the running total would exceed the cap — every later file in
the listing is also skipped with reason "Total Limit". -/
def claimC1Stmt : Prop :=
  ∀ (fsys : JsStr → FileLookup) (files : List JsStr) (i j : Nat),
    i < j → j < files.length →
    ((collect fsys files).trace.getD i (js "", Fate.skipped [])).2
      = Fate.skipped (js "Total Limit") →
    ((collect fsys files).trace.getD j (js "", Fate.skipped [])).2
      = Fate.skipped (js "Total Limit")

/-- Filesystem for the C1 counterexample: six staged files whose staged diffs
have lengths 30000, 30000, 30000, 9998, 5 and 2 bytes. -/
def fsC1 : JsStr → FileLookup := fun p =>
  if p = js "f5" then ⟨some 1, some (List.replicate 5 'a')⟩
  else if p = js "f6" then ⟨some 1, some (List.replicate 2 'a')⟩
  else if p = js "f4" then ⟨some 1, some (List.replicate 9998 'a')⟩
  else ⟨some 1, some (List.replicate 30000 'a')⟩

def filesC1 : List JsStr :=
  [js "f1", js "f2", js "f3", js "f4", js "f5", js "f6"]

theorem fsC1_diff1 : getFileDiff fsC1 (js "f1")
    = .content (List.replicate 30000 'a') :=
  getFileDiff_content _ _ 1 _ rfl (by decide) (by decide) (by decide)
    (by rw [List.length_replicate]; decide)

theorem fsC1_diff2 : getFileDiff fsC1 (js "f2")
    = .content (List.replicate 30000 'a') :=
  getFileDiff_content _ _ 1 _ rfl (by decide) (by decide) (by decide)
    (by rw [List.length_replicate]; decide)

theorem fsC1_diff3 : getFileDiff fsC1 (js "f3")
    = .content (List.replicate 30000 'a') :=
  getFileDiff_content _ _ 1 _ rfl (by decide) (by decide) (by decide)
    (by rw [List.length_replicate]; decide)

theorem fsC1_diff4 : getFileDiff fsC1 (js "f4")
    = .content (List.replicate 9998 'a') :=
  getFileDiff_content _ _ 1 _ rfl (by decide) (by decide) (by decide)
    (by rw [List.length_replicate]; decide)

theorem fsC1_diff5 : getFileDiff fsC1 (js "f5")
    = .content (List.replicate 5 'a') :=
  getFileDiff_content _ _ 1 _ rfl (by decide) (by decide) (by decide)
    (by rw [List.length_replicate]; decide)

theorem fsC1_diff6 : getFileDiff fsC1 (js "f6")
    = .content (List.replicate 2 'a') :=
  getFileDiff_content _ _ 1 _ rfl (by decide) (by decide) (by decide)
    (by rw [List.length_replicate]; decide)

/-- The successive loop states of the counterexample run. -/
def s1C1 : CollectSt := collectStep fsC1 initCollect (js "f1")

def s2C1 : CollectSt := collectStep fsC1 s1C1 (js "f2")

def s3C1 : CollectSt := collectStep fsC1 s2C1 (js "f3")

def s4C1 : CollectSt := collectStep fsC1 s3C1 (js "f4")

def s5C1 : CollectSt := collectStep fsC1 s4C1 (js "f5")

def s6C1 : CollectSt := collectStep fsC1 s5C1 (js "f6")

theorem s1C1_eval : s1C1.totalSize = 30000
    ∧ s1C1.trace = [(js "f1", Fate.included 30000)] := by
  obtain ⟨t, r⟩ := collectStep_content fsC1 initCollect (js "f1")
    (List.replicate 30000 'a') (by decide) fsC1_diff1
    (by rw [List.length_replicate]; decide)
  rw [List.length_replicate] at t r
  refine ⟨?_, ?_⟩
  · rw [show s1C1.totalSize
      = (collectStep fsC1 initCollect (js "f1")).totalSize from rfl, t]
    decide
  · rw [show s1C1.trace
      = (collectStep fsC1 initCollect (js "f1")).trace from rfl, r]
    rfl

theorem s2C1_eval : s2C1.totalSize = 60000
    ∧ s2C1.trace = [(js "f1", Fate.included 30000),
        (js "f2", Fate.included 30000)] := by
  obtain ⟨t, r⟩ := collectStep_content fsC1 s1C1 (js "f2")
    (List.replicate 30000 'a') (by rw [s1C1_eval.1]; decide) fsC1_diff2
    (by rw [List.length_replicate, s1C1_eval.1]; decide)
  rw [List.length_replicate] at t r
  refine ⟨?_, ?_⟩
  · rw [show s2C1.totalSize
      = (collectStep fsC1 s1C1 (js "f2")).totalSize from rfl, t,
      s1C1_eval.1]
  · rw [show s2C1.trace
      = (collectStep fsC1 s1C1 (js "f2")).trace from rfl, r,
      s1C1_eval.2]
    rfl

theorem s3C1_eval : s3C1.totalSize = 90000
    ∧ s3C1.trace = [(js "f1", Fate.included 30000),
        (js "f2", Fate.included 30000), (js "f3", Fate.included 30000)] := by
  obtain ⟨t, r⟩ := collectStep_content fsC1 s2C1 (js "f3")
    (List.replicate 30000 'a') (by rw [s2C1_eval.1]; decide) fsC1_diff3
    (by rw [List.length_replicate, s2C1_eval.1]; decide)
  rw [List.length_replicate] at t r
  refine ⟨?_, ?_⟩
  · rw [show s3C1.totalSize
      = (collectStep fsC1 s2C1 (js "f3")).totalSize from rfl, t,
      s2C1_eval.1]
  · rw [show s3C1.trace
      = (collectStep fsC1 s2C1 (js "f3")).trace from rfl, r,
      s2C1_eval.2]
    rfl

theorem s4C1_eval : s4C1.totalSize = 99998
    ∧ s4C1.trace = [(js "f1", Fate.included 30000),
        (js "f2", Fate.included 30000), (js "f3", Fate.included 30000),
        (js "f4", Fate.included 9998)] := by
  obtain ⟨t, r⟩ := collectStep_content fsC1 s3C1 (js "f4")
    (List.replicate 9998 'a') (by rw [s3C1_eval.1]; decide) fsC1_diff4
    (by rw [List.length_replicate, s3C1_eval.1]; decide)
  rw [List.length_replicate] at t r
  refine ⟨?_, ?_⟩
  · rw [show s4C1.totalSize
      = (collectStep fsC1 s3C1 (js "f4")).totalSize from rfl, t,
      s3C1_eval.1]
  · rw [show s4C1.trace
      = (collectStep fsC1 s3C1 (js "f4")).trace from rfl, r,
      s3C1_eval.2]
    rfl

theorem s5C1_eval : s5C1.totalSize = 99998
    ∧ s5C1.trace = [(js "f1", Fate.included 30000),
        (js "f2", Fate.included 30000), (js "f3", Fate.included 30000),
        (js "f4", Fate.included 9998),
        (js "f5", Fate.skipped (js "Total Limit"))] := by
  obtain ⟨t, r⟩ := collectStep_cap fsC1 s4C1 (js "f5")
    (List.replicate 5 'a') (by rw [s4C1_eval.1]; decide) fsC1_diff5
    (by rw [List.length_replicate, s4C1_eval.1]; decide)
  refine ⟨?_, ?_⟩
  · rw [show s5C1.totalSize
      = (collectStep fsC1 s4C1 (js "f5")).totalSize from rfl, t,
      s4C1_eval.1]
  · rw [show s5C1.trace
      = (collectStep fsC1 s4C1 (js "f5")).trace from rfl, r,
      s4C1_eval.2]
    rfl

/-- Unfolding of the six-step loop into the named intermediate states. -/
theorem collectC1_unfold : collect fsC1 filesC1 = s6C1 := by
  show List.foldl (collectStep fsC1) initCollect
    [js "f1", js "f2", js "f3", js "f4", js "f5", js "f6"] = s6C1
  rw [List.foldl_cons]
  rw [show collectStep fsC1 initCollect (js "f1") = s1C1 from rfl]
  rw [List.foldl_cons]
  rw [show collectStep fsC1 s1C1 (js "f2") = s2C1 from rfl]
  rw [List.foldl_cons]
  rw [show collectStep fsC1 s2C1 (js "f3") = s3C1 from rfl]
  rw [List.foldl_cons]
  rw [show collectStep fsC1 s3C1 (js "f4") = s4C1 from rfl]
  rw [List.foldl_cons]
  rw [show collectStep fsC1 s4C1 (js "f5") = s5C1 from rfl]
  rw [List.foldl_cons]
  rw [show collectStep fsC1 s5C1 (js "f6") = s6C1 from rfl]
  rw [List.foldl_nil]

/-- Full per-file outcome of the counterexample run: f1-f4 win the budget
(total 99998), f5 would exceed the cap and is skipped, yet the smaller f6
still fits (total exactly 100000) and is included. -/
theorem collectC1_trace :
    (collect fsC1 filesC1).trace =
      [(js "f1", Fate.included 30000), (js "f2", Fate.included 30000),
       (js "f3", Fate.included 30000), (js "f4", Fate.included 9998),
       (js "f5", Fate.skipped (js "Total Limit")),
       (js "f6", Fate.included 2)] := by
  obtain ⟨t, r⟩ := collectStep_content fsC1 s5C1 (js "f6")
    (List.replicate 2 'a') (by rw [s5C1_eval.1]; decide) fsC1_diff6
    (by rw [List.length_replicate, s5C1_eval.1]; decide)
  rw [List.length_replicate] at r
  rw [collectC1_unfold,
    show s6C1.trace = (collectStep fsC1 s5C1 (js "f6")).trace from rfl,
    r, s5C1_eval.2]
  rfl

/-- C1 counterexample: in the six-file run above, f5 is skipped with reason
"Total Limit" because its 5-byte diff would exceed the cap, yet the later
2-byte f6 is still included — so after a total-limit skip the remaining files
are not all skipped, contradicting the claim. -/
theorem C1_counterexample : ¬ claimC1Stmt := by
  intro h
  have h4 : ((collect fsC1 filesC1).trace.getD 4 (js "", Fate.skipped [])).2
      = Fate.skipped (js "Total Limit") := by
    rw [collectC1_trace]
    rfl
  have h5 := h fsC1 filesC1 4 5 (by decide) (by decide) h4
  rw [collectC1_trace] at h5
  exact absurd h5 (by decide)

/-- C1 amended: the sum of included diff lengths never exceeds the 100000
cap; once the running total has *reached* the cap, every remaining file is
skipped with reason "Total Limit" regardless of its own size and the total
never changes again; but a file skipped because its own diff would overflow
the cap does not block later, smaller files — the listing order decides which
files win the budget. -/
theorem C1_amended (fsys : JsStr → FileLookup) (files : List JsStr) :
    (collect fsys files).totalSize ≤ MAX_TOTAL_SIZE
    ∧ (collect fsys files).totalSize
        = sumIncluded (collect fsys files).trace
    ∧ (∀ (st : CollectSt) (fs : List JsStr),
        MAX_TOTAL_SIZE ≤ st.totalSize →
        (fs.foldl (collectStep fsys) st).trace
          = st.trace
            ++ fs.map (fun f => (f, Fate.skipped (js "Total Limit")))
        ∧ (fs.foldl (collectStep fsys) st).totalSize = st.totalSize) := by
  obtain ⟨g1, g2⟩ := collect_inv fsys files initCollect (by decide) rfl
  exact ⟨g1, g2, fun st fs h => collect_capped_tail fsys fs st h⟩

/-- Witness for C1: from a state whose running total already equals the cap,
the next file is skipped as "Total Limit" without looking at its size. -/
theorem C1_witness :
    (([js "x"]).foldl (collectStep (fun _ => ⟨some 1, some []⟩))
        ⟨[], 100000, [], []⟩).trace
      = [(js "x", Fate.skipped (js "Total Limit"))] := by
  have h := (C1_amended (fun _ => ⟨some 1, some []⟩) []).2.2
    ⟨[], 100000, [], []⟩ [js "x"] (by decide)
  rw [h.1]
  rfl

/-!  ## Claim C10 — boxMessage draws a rectangle -/

theorem renderWidth_append (a b : JsStr) :
    renderWidth (a ++ b) = renderWidth a + renderWidth b := by
  simp [renderWidth]

theorem renderWidth_replicate (n : Nat) (c : Char)
    (h : (if isBoxGlyph c then 1 else charVisualWidth c) = 1) :
    renderWidth (List.replicate n c) = n := by
  simp [renderWidth, List.map_replicate, h]

theorem renderWidth_eq_visual (s : JsStr)
    (h : ∀ c ∈ s, isBoxGlyph c = false) :
    renderWidth s = getVisualWidth s := by
  unfold renderWidth getVisualWidth
  congr 1
  apply List.map_congr_left
  intro a ha
  rw [h a ha]
  simp

theorem foldl_max_init_le : ∀ (l : List Nat) (a : Nat), a ≤ l.foldl max a := by
  intro l
  induction l with
  | nil => intro a; exact le_refl a
  | cons x t ih => intro a; exact le_trans (le_max_left a x) (ih (max a x))

theorem le_foldl_max : ∀ (l : List Nat) (a x : Nat), x ∈ l → x ≤ l.foldl max a := by
  intro l
  induction l with
  | nil => intro a x hx; simp at hx
  | cons y t ih =>
    intro a x hx
    rcases List.mem_cons.mp hx with h | h
    · subst h
      exact le_trans (le_max_right a x) (foldl_max_init_le t _)
    · exact ih _ x h

/-- Every character of a line produced by the wrap loop comes from the
paragraph or from the line under construction. -/
theorem wrapLoop_chars (limit : Int) :
    ∀ (para cur : JsStr) (w : Nat) (l : JsStr), l ∈ wrapLoop limit para cur w →
      ∀ c ∈ l, c ∈ para ∨ c ∈ cur := by
  intro para
  induction para with
  | nil =>
    intro cur w l hl c hc
    simp only [wrapLoop, List.mem_singleton] at hl
    subst hl
    exact Or.inr hc
  | cons a rest ih =>
    intro cur w l hl c hc
    simp only [wrapLoop] at hl
    split at hl
    · rcases List.mem_cons.mp hl with h | h
      · subst h; exact Or.inr hc
      · rcases ih [a] _ l h c hc with h' | h'
        · exact Or.inl (List.mem_cons_of_mem _ h')
        · simp only [List.mem_singleton] at h'
          subst h'
          exact Or.inl (List.mem_cons_self _ _)
    · rcases ih (cur ++ [a]) _ l hl c hc with h' | h'
      · exact Or.inl (List.mem_cons_of_mem _ h')
      · rcases List.mem_append.mp h' with h'' | h''
        · exact Or.inr h''
        · simp only [List.mem_singleton] at h''
          subst h''
          exact Or.inl (List.mem_cons_self _ _)

theorem mem_intersperse_src {α : Type} (sep : α) :
    ∀ (L : List α) (l : α), l ∈ L.intersperse sep → l = sep ∨ l ∈ L := by
  intro L
  induction L with
  | nil => intro l hl; simp at hl
  | cons a t ih =>
    intro l hl
    cases t with
    | nil =>
      simp only [List.intersperse_singleton, List.mem_singleton] at hl
      exact Or.inr (by simp [hl])
    | cons b t' =>
      rw [List.intersperse_cons_cons] at hl
      rcases List.mem_cons.mp hl with h | h
      · exact Or.inr (h ▸ List.mem_cons_self _ _)
      · rcases List.mem_cons.mp h with h2 | h2
        · exact Or.inl h2
        · rcases ih l h2 with h3 | h3
          · exact Or.inl h3
          · exact Or.inr (List.mem_cons_of_mem _ h3)

/-- Every character of the wrapped output is a newline inserted by the join
or a character of the original text. -/
theorem mem_wrapText_chars (text : JsStr) (mw cols : Option Int) (c : Char)
    (hc : c ∈ wrapText text mw cols) : c = '\n' ∨ c ∈ text := by
  unfold wrapText at hc
  split at hc
  · simp at hc
  · unfold List.intercalate at hc
    rw [List.mem_flatten] at hc
    obtain ⟨l, hlmem, hcl⟩ := hc
    rcases mem_intersperse_src _ _ _ hlmem with h | h
    · subst h
      left
      simpa [js] using hcl
    · right
      unfold wrapTextLines at h
      rw [List.mem_flatten] at h
      obtain ⟨ll, hll, hlll⟩ := h
      rw [List.mem_map] at hll
      obtain ⟨para, hpara, rfl⟩ := hll
      rcases wrapLoop_chars _ para [] 0 l hlll c hcl with h | h
      · exact mem_of_mem_splitOn hpara h
      · simp at h

theorem boxLines_chars (text : JsStr) (cols : Option Int) (line : JsStr)
    (hline : line ∈ boxLines text cols) (c : Char) (hc : c ∈ line) :
    c = '\n' ∨ c ∈ text := by
  unfold boxLines at hline
  exact mem_wrapText_chars _ _ _ _ (mem_of_mem_splitOn hline hc)

/-- C10: for every title and text, the frame produced by boxMessage is a
rectangle — the top border with the embedded title, every padded content row
and the bottom border all render to the computed box width plus two columns
(each frame glyph counting one column) — and the dash and padding repeat
counts are never negative, even when the title is wider than every wrapped
content line.  The title and text are assumed not to contain the frame
glyphs themselves, so that the width measure is unambiguous. -/
theorem C10_thm (title text : JsStr) (columns : Option Int)
    (h1 : ∀ c ∈ title, isBoxGlyph c = false)
    (h3 : ∀ c ∈ text, isBoxGlyph c = false) :
    (∀ row ∈ boxRows title text columns,
      renderWidth row = boxWidthOf title text columns + 2)
    ∧ 0 ≤ boxRightDashes title text columns
    ∧ (∀ line ∈ boxLines text columns,
        0 ≤ boxRowPadding title text columns line) := by
  have hbw : boxWidthOf title text columns
      = boxContentWidth title text columns + 2 := rfl
  have hT2 : getVisualWidth title + 2 ≤ boxContentWidth title text columns :=
    le_max_right _ _
  have hRD : boxRightDashes title text columns
      = (boxWidthOf title text columns : Int) - getVisualWidth title - 3 := rfl
  have hRD0 : 0 ≤ boxRightDashes title text columns := by
    rw [hRD, hbw]
    push_cast
    omega
  have hlineW : ∀ line ∈ boxLines text columns,
      getVisualWidth line ≤ boxContentWidth title text columns := by
    intro line hline
    refine le_trans (le_foldl_max _ 0 _ ?_) (le_max_left _ _)
    exact List.mem_map_of_mem getVisualWidth hline
  have hpad0 : ∀ line ∈ boxLines text columns,
      0 ≤ boxRowPadding title text columns line := by
    intro line hline
    have := hlineW line hline
    unfold boxRowPadding
    rw [hbw]
    push_cast
    omega
  refine ⟨?_, hRD0, hpad0⟩
  intro row hrow
  simp only [boxRows, List.mem_cons, List.mem_append, List.mem_map,
    List.mem_singleton] at hrow
  rcases hrow with (hrow | ⟨line, hline, rfl⟩) | hrow | hrow
  case inr.inr => exact absurd hrow (List.not_mem_nil _)
  · subst hrow
    have hk : (max 0 (boxRightDashes title text columns)).toNat
        = boxContentWidth title text columns - getVisualWidth title - 1 := by
      rw [max_eq_right hRD0, hRD, hbw]
      push_cast
      omega
    rw [renderWidth_append, renderWidth_append, renderWidth_append,
      renderWidth_append, renderWidth_eq_visual title h1,
      renderWidth_replicate _ '─' (by decide), hk, hbw]
    have hpre : renderWidth (js "┌─ ") = 3 := by decide
    have hsp : renderWidth [' '] = 1 := by decide
    have hcor : renderWidth ['┐'] = 1 := by decide
    rw [hpre, hsp, hcor]
    omega
  · have hw := hlineW line hline
    have hp := hpad0 line hline
    have hnog : ∀ c ∈ line, isBoxGlyph c = false := by
      intro c hc
      rcases boxLines_chars text columns line hline c hc with h | h
      · subst h; decide
      · exact h3 c h
    have hk : (max 0 (boxRowPadding title text columns line)).toNat
        = boxContentWidth title text columns + 1 - getVisualWidth line := by
      rw [max_eq_right hp]
      unfold boxRowPadding
      rw [hbw]
      push_cast
      omega
    rw [renderWidth_append, renderWidth_append, renderWidth_append,
      renderWidth_eq_visual line hnog,
      renderWidth_replicate _ ' ' (by decide), hk, hbw]
    have hpre : renderWidth (js "│ ") = 2 := by decide
    have hcor : renderWidth ['│'] = 1 := by decide
    rw [hpre, hcor]
    omega
  case inr.inl =>
    subst hrow
    rw [renderWidth_append, renderWidth_append,
      renderWidth_replicate _ '─' (by decide)]
    have hcl : renderWidth ['└'] = 1 := by decide
    have hcr : renderWidth ['┘'] = 1 := by decide
    rw [hcl, hcr]
    omega

/-- Witness for C10: a one-word box with a wide title — the first row (the
titled top border) renders to the computed width plus two, and the dash count
is non-negative. -/
theorem C10_witness :
    renderWidth ((boxRows (js "Title") (js "ab") none).getD 0 [])
      = boxWidthOf (js "Title") (js "ab") none + 2
    ∧ 0 ≤ boxRightDashes (js "Title") (js "ab") none :=
  ⟨(C10_thm (js "Title") (js "ab") none (by decide) (by decide)).1 _
      (by decide),
   (C10_thm (js "Title") (js "ab") none (by decide) (by decide)).2.1⟩

end CommitCat
